import Mathlib

/-!
Edge-cache node: request handler, shutdown drain, metrics recorder, control-plane ping.

A shallow embedding of `main.go`, `internal/mdathome/metrics.go` and
`internal/mdathome/utils.go`, followed by the properties established about them.

Conventions of the embedding:
* effects on the outside world (cache, origin, log) are recorded as a list of `Event`s;
* what the world answers (origin response, how much the client reads, clock readings)
  is an explicit input;
* a Go panic or `log.Fatalf` is an explicit outcome, never a missing case.
-/

namespace MdAtHome

/-! ## The fragment of Go regexp syntax used by the program -/

/-- Regular expressions without anchors: the empty expression, one character of a class,
sequence, ordered alternation and greedy repetition of a character class. -/
inductive Re where
  | eps : Re
  | cls : (Char → Bool) → Re
  | seq : Re → Re → Re
  | alt : Re → Re → Re
  | many : (Char → Bool) → Re

/-- Greedy `[class]*` with backtracking: take as many characters as possible first. -/
def manyRun {α : Type} (p : Char → Bool) : List Char → (List Char → Option α) → Option α
  | [], k => k []
  | c :: t, k => if p c then (manyRun p t k).orElse (fun _ => k (c :: t)) else k (c :: t)

/-- Backtracking matcher in continuation style: `r.run s k` matches a prefix of `s`
against `r` and hands what is left to `k`; alternatives are tried in order
(leftmost-first, as Go's regexp does). -/
def Re.run {α : Type} : Re → List Char → (List Char → Option α) → Option α
  | .eps, s, k => k s
  | .cls p, s, k =>
    match s with
    | [] => none
    | c :: t => if p c then k t else none
  | .seq a b, s, k => a.run s (fun t => b.run t k)
  | .alt a b, s, k => (a.run s k).orElse (fun _ => b.run s k)
  | .many p, s, k => manyRun p s k

/-- A character range `lo-hi` inside a bracket expression. -/
def inRange (lo hi c : Char) : Bool := decide (lo.toNat ≤ c.toNat) && decide (c.toNat ≤ hi.toNat)

/-- The class `[0-9a-f]`. -/
def isLowerHex (c : Char) : Bool := inRange '0' '9' c || inRange 'a' 'f' c

/-- The class `[a-zA-Z0-9]`. -/
def isAlnum (c : Char) : Bool := inRange 'a' 'z' c || inRange 'A' 'Z' c || inRange '0' '9' c

/-- The class `[0-9]`. -/
def isDigit (c : Char) : Bool := inRange '0' '9' c

/-- An unescaped `.`: any character but a newline. -/
def isDot (c : Char) : Bool := c != '\n'

/-- A literal character. -/
def Re.chr (c : Char) : Re := .cls (fun d => d == c)

/-- A literal string. -/
def Re.lit : List Char → Re
  | [] => .eps
  | c :: t => .seq (.chr c) (Re.lit t)

/-- Counted repetition `r{n}`. -/
def Re.times (r : Re) : Nat → Re
  | 0 => .eps
  | n + 1 => .seq r (Re.times r n)

/-- Counted greedy repetition `r{0,n}`. -/
def Re.upTo (r : Re) : Nat → Re
  | 0 => .eps
  | n + 1 => .alt (.seq r (Re.upTo r n)) .eps

/-- Counted repetition `r{lo,hi}`. -/
def Re.between (r : Re) (lo hi : Nat) : Re := .seq (r.times lo) (r.upTo (hi - lo))

/-- A pattern: a body with an optional leading `^` and an optional trailing `$`. -/
structure Regexp where
  bol : Bool
  body : Re
  eol : Bool

/-- Match the pattern body at the start of `s`; the result is what follows the match. -/
def Regexp.matchAt (re : Regexp) (s : List Char) : Option (List Char) :=
  re.body.run s (fun rest => if re.eol && !rest.isEmpty then none else some rest)

/-- The text matched at the start of `s`, if any. -/
def Regexp.matchText (re : Regexp) (s : List Char) : Option (List Char) :=
  (re.matchAt s).map (fun rest => s.take (s.length - rest.length))

/-- Leftmost match over all start positions of `s`. -/
def Regexp.search (re : Regexp) : List Char → Option (List Char)
  | [] => re.matchText []
  | c :: t => (re.matchText (c :: t)).orElse (fun _ => Regexp.search re t)

/-- The leftmost match of the pattern in `s`: only at position 0 under `^`. -/
def Regexp.find (re : Regexp) (s : List Char) : Option (List Char) :=
  if re.bol then re.matchText s else re.search s

/-- Go `regexp.MatchString(pattern, s)`. -/
def MatchString (re : Regexp) (s : String) : Bool := (re.find s.toList).isSome

/-- Go `re.FindString(s)`: the text of the leftmost match, or the empty string. -/
def FindString (re : Regexp) (s : String) : String :=
  match re.find s.toList with
  | some m => String.mk m
  | none => ""

/-- The pattern `^[0-9a-f]{32}$` of `RequestHandler`. -/
def chapterHashRe : Regexp :=
  { bol := true, body := (Re.cls isLowerHex).times 32, eol := true }

/-- The pattern `[a-zA-Z0-9]{1,4}\.(jpg|jpeg|png|gif)$` of `RequestHandler`. -/
def imageFilenameRe : Regexp :=
  { bol := false
    body := .seq ((Re.cls isAlnum).between 1 4)
      (.seq (Re.chr '.')
        (.alt (Re.lit "jpg".toList) (.alt (Re.lit "jpeg".toList)
          (.alt (Re.lit "png".toList) (Re.lit "gif".toList)))))
    eol := true }

/-- The pattern `https://mangadex.org/chapter/[0-9]+` of `RequestHandler`
(its dot is unescaped). -/
def refererRe : Regexp :=
  { bol := false
    body := .seq (Re.lit "https://mangadex".toList)
      (.seq (.cls isDot)
        (.seq (Re.lit "org/chapter/".toList)
          (.seq (.cls isDigit) (.many isDigit))))
    eol := false }

/-! ## RequestHandler (main.go) -/

/-- Image bytes. -/
abbrev Bytes := List UInt8

/-- What the handler does to the outside world, in program order. -/
inductive Event where
  | log (line : String)
  | cacheGet (key : String)
  | cacheSet (key : String) (value : Bytes)
  | upstreamGet (url : String)
deriving DecidableEq, Repr

/-- The two operations of the disk cache that the handler calls, over any cache state `σ`:
`get` answers `(bytes, found)`, `set` stores (its error result is ignored by the caller). -/
structure CacheOps (σ : Type) where
  get : σ → String → Option Bytes
  set : σ → String → Bytes → σ

/-- What the handler reads from an inbound request: the three route variables of
`mux.Vars(r)`, the values of `r.Header.Get` for the two headers it looks at
(`""` when absent) and `r.RemoteAddr`. -/
structure Request where
  image_type : String
  chapter_hash : String
  image_filename : String
  referer : String
  ifModifiedSince : String
  remoteAddr : String
deriving DecidableEq, Repr

/-- The answer of `client.Get(url)`: an error after the retries, or a response whose body
yields `chunks` on successive reads; `lost` is the rest of the origin's body that a failing
read never delivered (empty when the body ends in EOF). -/
inductive Origin where
  | error (msg : String)
  | response (chunks : List Bytes) (lost : Bytes)
deriving DecidableEq, Repr

/-- The whole body the origin meant to send. -/
def Origin.wholeBody : Origin → Bytes
  | .error _ => []
  | .response chunks lost => chunks.flatten ++ lost

/-- The inputs a single request takes from the world: the origin's answer per URL, how many
bytes the client connection accepts before a write fails (`none`: all of them), and the four
readings of `time.Now()` in nanoseconds. -/
structure World where
  origin : String → Origin
  clientAccepts : Option Nat
  tStart : Int
  tProcessed : Int
  tLast : Int
  tEnd : Int

/-- The process-wide variables the handler reads or writes: `cache`,
`serverResponse.ImageServer` and `timeLastRequest`. -/
structure Globals (σ : Type) where
  cache : σ
  imageServer : String
  timeLastRequest : Int

/-- The response header map `w.Header()`. -/
abbrev Header := List (String × String)

/-- Go `Header.Set`: replace the value held under the key. -/
def Header.set (h : Header) (k v : String) : Header :=
  h.filter (fun p => p.1 != k) ++ [(k, v)]

/-- Go `Header.Get`: the value held under the key, `""` when there is none. -/
def Header.get (h : Header) (k : String) : String :=
  match h.find? (fun p => p.1 == k) with
  | some p => p.2
  | none => ""

/-- What the client side sees: the status (`none` when the handler panicked before any
answer), the final state of the header map, the bytes delivered, and whether the handler
ended in a panic. -/
structure Reply where
  status : Option Nat
  header : Header
  body : Bytes
  panicked : Bool
deriving DecidableEq, Repr

/-- Result of one run of the handler. -/
structure Outcome (σ : Type) where
  reply : Reply
  events : List Event
  globals : Globals σ

/-- Go `Duration.Milliseconds()` of `b.Sub(a)`. -/
def elapsedMs (a b : Int) : Int := Int.tdiv (b - a) 1000000

/-- Go `io.Copy(w, io.TeeReader(body, &imageBuffer))`: every chunk read is appended to the
buffer and then written to the client; the copy stops at the first write the client does
not take in full. Result: (bytes delivered to the client, contents of the buffer). -/
def teeCopy : List Bytes → Option Nat → Bytes × Bytes
  | [], _ => ([], [])
  | c :: rest, none => (c ++ (teeCopy rest none).1, c ++ (teeCopy rest none).2)
  | c :: rest, some n =>
    if c.length ≤ n then
      (c ++ (teeCopy rest (some (n - c.length))).1, c ++ (teeCopy rest (some (n - c.length))).2)
    else (c.take n, c)

/-- Go `io.Copy(w, bytes.NewReader(image))`: one write of the whole image; the result is
what the client took. -/
def plainCopy (image : Bytes) : Option Nat → Bytes
  | none => image
  | some n => image.take n

/-- The key built from the three tokens. -/
def sanitizedUrl (r : Request) : String :=
  "/" ++ r.image_type ++ "/" ++ r.chapter_hash ++ "/" ++ r.image_filename

/-- The Referer after the two normalisation steps of the handler. -/
def normalizedReferer (r : Request) : String :=
  let referer := if r.referer = "" then "None" else r.referer
  let matched := FindString refererRe referer
  if matched ≠ "" then matched else referer

/-- The common part of the handler's log lines. -/
def logLine (r : Request) (what : String) : Event :=
  .log ("Request for " ++ sanitizedUrl r ++ " - " ++ r.remoteAddr ++ " - " ++
    normalizedReferer r ++ " " ++ what)

/-- The answer to a request that fails validation. -/
def badRequest {σ : Type} (g : Globals σ) : Outcome σ :=
  { reply := { status := some 400, header := [], body := [], panicked := false }
    events := []
    globals := g }

/-- The function `RequestHandler` of main.go. -/
def RequestHandler {σ : Type} (C : CacheOps σ) (g : Globals σ) (w : World) (r : Request) :
    Outcome σ :=
  if r.image_type ≠ "data" ∧ r.image_type ≠ "data-saver" then badRequest g
  else if MatchString chapterHashRe r.chapter_hash = false then badRequest g
  else if MatchString imageFilenameRe r.image_filename = false then badRequest g
  else
    let sanitized_url := sanitizedUrl r
    let received := logLine r "received"
    if r.ifModifiedSince ≠ "" then
      { reply := { status := some 304, header := [], body := [], panicked := false }
        events := [received, logLine r "cached by browser"]
        globals := g }
    else
      let header := (Header.set [] "Access-Control-Allow-Origin" "https://mangadex.org").set
        "Access-Control-Expose-Headers" "*"
      match C.get g.cache sanitized_url with
      | none =>
        let header := header.set "X-Cache" "MISS"
        let url := g.imageServer ++ sanitized_url
        let before := [received, .cacheGet sanitized_url, logLine r "missed cache",
          .upstreamGet url]
        match w.origin url with
        | .error msg =>
          { reply := { status := none, header := header, body := [], panicked := true }
            events := before ++ [.log ("ERROR: " ++ msg)]
            globals := g }
        | .response chunks _ =>
          let processedTime := elapsedMs w.tStart w.tProcessed
          let header := header.set "X-Time-Taken" (toString processedTime)
          let copied := teeCopy chunks w.clientAccepts
          let totalTime := elapsedMs w.tStart w.tEnd
          { reply := { status := some 200
                       header := header.set "X-Time-Taken" (toString totalTime)
                       body := copied.1, panicked := false }
            events := before ++
              [logLine r ("processed in " ++ toString processedTime ++ "ms"),
               .cacheSet sanitized_url copied.2,
               logLine r ("completed in " ++ toString totalTime ++ "ms")]
            globals := { g with cache := C.set g.cache sanitized_url copied.2
                                timeLastRequest := w.tLast } }
      | some imageFromCache =>
        let image := imageFromCache
        let header := header.set "X-Cache" "HIT"
        let processedTime := elapsedMs w.tStart w.tProcessed
        let header := header.set "X-Time-Taken" (toString processedTime)
        let totalTime := elapsedMs w.tStart w.tEnd
        { reply := { status := some 200
                     header := header.set "X-Time-Taken" (toString totalTime)
                     body := plainCopy image w.clientAccepts, panicked := false }
          events := [received, .cacheGet sanitized_url, logLine r "hit cache",
            logLine r ("processed in " ++ toString processedTime ++ "ms"),
            logLine r ("completed in " ++ toString totalTime ++ "ms")]
          globals := { g with timeLastRequest := w.tLast } }

/-- A cache held in memory as an association list, newest entry first. -/
def listCache : CacheOps (List (String × Bytes)) where
  get := fun c k => (c.find? (fun p => p.1 == k)).map (fun p => p.2)
  set := fun c k v => (k, v) :: c

/-! ## Shutdown handlers (main.go `ShutdownHandler`, utils.go `serverShutdownHandler`) -/

/-- How the drain wait ended: the number of `time.Sleep(1 * time.Second)` calls it made,
whether it was left through the `break` of the budget test, and the last clock reading it
took. -/
structure Drain where
  sleeps : Nat
  gaveUp : Bool
  leftAt : Int
deriving DecidableEq, Repr

/-- The drain loop shared by both shutdown handlers. `clock i` is the value, in
nanoseconds, of the `i`-th call of `time.Now()` made from the start of the drain wait
(`time.Since` reads the clock too): reading 0 is `timeShutdown`, reading 1 the first
measure of the time since the last request, and in the pass of the loop that follows `k`
sleeps reading `2 * k + 2` serves the budget test and reading `2 * k + 3`, taken after the
sleep, the next measure. `timeLastRequest` stays fixed. The float seconds of the source are
compared as the nanosecond counts they are computed from. `none`: out of fuel. -/
def drainLoop (threshold graceful timeLastRequest timeShutdown : Int) (clock : Nat → Int) :
    Nat → Nat → Int → Option Drain
  | 0, _, _ => none
  | fuel + 1, k, sinceLastRequest =>
    if sinceLastRequest < threshold * 1000000000 then
      if clock (2 * k + 2) - timeShutdown > graceful * 1000000000 then
        some { sleeps := k, gaveUp := true, leftAt := clock (2 * k + 2) }
      else drainLoop threshold graceful timeLastRequest timeShutdown clock fuel (k + 1)
        (clock (2 * k + 3) - timeLastRequest)
    else some { sleeps := k, gaveUp := false, leftAt := clock (2 * k + 1) }

/-- The drain wait from its first line: `timeShutdown := time.Now()`, the first measure of
the time since the last request, then the loop. The fuel is two more than the number of
whole seconds that separate the first measure from the threshold. -/
def drainWait (threshold graceful timeLastRequest : Int) (clock : Nat → Int) : Option Drain :=
  drainLoop threshold graceful timeLastRequest (clock 0) clock
    (((threshold * 1000000000 - (clock 1 - timeLastRequest)) / 1000000000).toNat + 2)
    0 (clock 1 - timeLastRequest)

/-- Go run-time panics and library panics met in the embedded code. -/
inductive Panic where
  | nilMapAssignment
  | nilDereference
  | counterDecrease
  | sliceBounds
  | logPanicf
deriving DecidableEq, Repr

/-- The struct `RequestCounter`: two `prometheus.Counter` interface values, `none` for the
nil interface. A counter is represented by its current value; the map entry stands for the
counter object it points to. -/
structure RequestCounter where
  elapsed : Option Int
  count : Option Int
deriving DecidableEq, Repr

/-- A Go `map[string]RequestCounter`: `none` is the nil map. -/
abbrev CounterMap := Option (List (String × RequestCounter))

/-- The constant `RequestHit`. -/
def RequestHit : String := "HIT"

/-- The constant `RequestMiss`. -/
def RequestMiss : String := "MISS"

/-- The package variable `var counters map[string]RequestCounter`: declared without a
value, hence the nil map. -/
def counters : CounterMap := none

/-- Go `m[k] = v`: panics on the nil map. -/
def mapAssign (m : CounterMap) (k : String) (v : RequestCounter) : Except Panic CounterMap :=
  match m with
  | none => .error .nilMapAssignment
  | some l => .ok (some ((k, v) :: l.filter (fun p => p.1 != k)))

/-- Go `m[k]`: the zero value when the map is nil or has no such key. -/
def mapIndex (m : CounterMap) (k : String) : RequestCounter :=
  match m with
  | none => { elapsed := none, count := none }
  | some l =>
    match l.find? (fun p => p.1 == k) with
    | some p => p.2
    | none => { elapsed := none, count := none }

/-- The array `[3]string{RequestHit, RequestMiss}`: its third element is the zero value. -/
def requestTypes : List String := [RequestHit, RequestMiss, ""]

/-- The function `initMetrics`: one fresh pair of counters per element of the array. -/
def initMetrics (m : CounterMap) : Except Panic CounterMap :=
  requestTypes.foldlM (fun acc requestType =>
    mapAssign acc requestType { elapsed := some 0, count := some 0 }) m

/-- Go `Counter.Inc()` on an interface value. -/
def counterInc : Option Int → Except Panic Int
  | none => .error .nilDereference
  | some v => .ok (v + 1)

/-- Go `Counter.Add(x)` on an interface value: the library panics on a negative `x`. -/
def counterAdd : Option Int → Int → Except Panic Int
  | none, _ => .error .nilDereference
  | some v, x => if x < 0 then .error .counterDecrease else .ok (v + x)

/-- Write the new values of the counters that the entry under `k` points to. -/
def updateCounters (m : CounterMap) (k : String) (v : RequestCounter) : CounterMap :=
  m.map (fun l => l.map (fun p => if p.1 == k then (p.1, v) else p))

/-- The function `recordRequest`. The elapsed value is a whole number of the caller's unit.
The result is the state of the counters after the call. -/
def recordRequest (m : CounterMap) (hit : Bool) (elapsed : Int) : Except Panic CounterMap :=
  let requestType := if hit then RequestHit else RequestMiss
  let counter := mapIndex m requestType
  match counterInc counter.count with
  | .error e => .error e
  | .ok count =>
    match counterAdd counter.elapsed elapsed with
    | .error e => .error e
    | .ok total => .ok (updateCounters m requestType { elapsed := some total, count := some count })

/-! ## Control-plane ping (main.go `pingServer`) -/

/-- The fields of `ServerResponse` that main.go reads. -/
structure ServerResponse where
  ImageServer : String
  TlsCertificate : String
  TlsPrivateKey : String
deriving DecidableEq, Repr

/-- The answer of `http.Post(apiBackend + "/ping", ...)` followed by `ioutil.ReadAll`. -/
inductive PostResult where
  | postError
  | readError
  | body (response : String)
deriving DecidableEq, Repr

/-- How `pingServer` ends. -/
inductive PingOutcome where
  | returned (response : ServerResponse) (logged : String)
  | panicked (why : Panic)
  | fatal
deriving DecidableEq, Repr

/-- Search of `substr` in the rest of a string that starts at index `i`. -/
def indexFrom (substr : List Char) : List Char → Nat → Int
  | [], i => if substr.isEmpty then (i : Int) else -1
  | c :: t, i => if substr.isPrefixOf (c :: t) then (i : Int) else indexFrom substr t (i + 1)

/-- Go `strings.Index(s, substr)`: the index of the first instance, or -1. -/
def stringsIndex (s substr : String) : Int := indexFrom substr.toList s.toList 0

/-- Go `response[:i]`: panics when `i` is out of range. -/
def sliceTo (s : String) (i : Int) : Except Panic String :=
  if i < 0 ∨ (s.length : Int) < i then .error .sliceBounds
  else .ok (String.mk (s.toList.take i.toNat))

/-- The function `pingServer`, from the answer of the control server on. `unmarshal` is
`json.Unmarshal(response, &serverResponse)`: given the body and the value held so far it
yields the updated value, or `none` on an error. -/
def pingServer (unmarshal : String → ServerResponse → Option ServerResponse)
    (serverResponse : ServerResponse) (r : PostResult) : PingOutcome :=
  match r with
  | .postError => .panicked .logPanicf
  | .readError => .panicked .logPanicf
  | .body response =>
    let tlsIndex := stringsIndex response "\"tls\""
    match sliceTo response tlsIndex with
    | .error e => .panicked e
    | .ok shown =>
      match unmarshal response serverResponse with
      | none => .panicked .logPanicf
      | some decoded =>
        if decoded.ImageServer = "" then .fatal
        else .returned decoded ("Server settings received! - " ++ shown ++ "...")

/-! ## Reference definitions used to state the properties -/

/-- The words matched by a regular expression. -/
def Re.Lang : Re → List Char → Prop
  | .eps, u => u = []
  | .cls p, u => ∃ c, u = [c] ∧ p c = true
  | .seq a b, u => ∃ u₁ u₂, u = u₁ ++ u₂ ∧ a.Lang u₁ ∧ b.Lang u₂
  | .alt a b, u => a.Lang u ∨ b.Lang u
  | .many p, u => ∀ c ∈ u, p c = true

/-- A token of exactly 32 lowercase hexadecimal characters. -/
def IsChapterHash (s : String) : Prop :=
  s.length = 32 ∧ ∀ c ∈ s.toList, isLowerHex c = true

/-- The four image extensions. -/
def imageExtensions : List (List Char) :=
  ["jpg".toList, "jpeg".toList, "png".toList, "gif".toList]

/-- A token that ends in an alphanumeric character followed by a dot and an image
extension. -/
def EndsInImageName (s : String) : Prop :=
  ∃ pre c ext, s.toList = pre ++ c :: '.' :: ext ∧ isAlnum c = true ∧ ext ∈ imageExtensions

/-- The tokens that pass the three checks of `RequestHandler`. -/
def ValidTokens (r : Request) : Prop :=
  (r.image_type = "data" ∨ r.image_type = "data-saver") ∧ IsChapterHash r.chapter_hash ∧
    EndsInImageName r.image_filename

/-- The shape the data model gives to `image_filename` in a cache key: the whole token is
1 to 4 alphanumeric characters, a dot and an image extension, that is the handler's pattern
anchored at the start, `^[a-zA-Z0-9]{1,4}\.(jpg|jpeg|png|gif)$`. -/
def cacheKeyFilenameRe : Regexp := { imageFilenameRe with bol := true }

/-- The URLs fetched from the origin, in order. -/
def fetchedUrls : List Event → List String
  | [] => []
  | .upstreamGet url :: es => url :: fetchedUrls es
  | _ :: es => fetchedUrls es

/-- The cache stores, in order. -/
def cacheStores : List Event → List (String × Bytes)
  | [] => []
  | .cacheSet k v :: es => (k, v) :: cacheStores es
  | _ :: es => cacheStores es

/-- The keys looked up in the cache, in order. -/
def cacheLookups : List Event → List String
  | [] => []
  | .cacheGet k :: es => k :: cacheLookups es
  | _ :: es => cacheLookups es

/-- The measure of the time since the last request taken after `k` sleeps, in
nanoseconds. -/
def idleAt (clock : Nat → Int) (timeLastRequest : Int) (k : Nat) : Int :=
  clock (2 * k + 1) - timeLastRequest

/-- The time since `timeShutdown` seen by the budget test after `k` sleeps, in
nanoseconds. -/
def waitedAt (clock : Nat → Int) (k : Nat) : Int := clock (2 * k + 2) - clock 0

/-- What is assumed of the clock: a reading is never before the one that precedes it, and
the reading that follows a `time.Sleep(1 * time.Second)` is at least one second after the
reading that precedes the sleep. -/
def ClockAdvances (clock : Nat → Int) : Prop :=
  clock 0 ≤ clock 1 ∧ (∀ k, clock (2 * k + 1) ≤ clock (2 * k + 2)) ∧
    ∀ k, clock (2 * k + 2) + 1000000000 ≤ clock (2 * k + 3)

/-! ## Concrete inputs -/

/-- The request of the worked example: `/data/0123456789abcdef0123456789abcdef/x1.jpg`. -/
def exampleRequest : Request :=
  { image_type := "data", chapter_hash := "0123456789abcdef0123456789abcdef"
    image_filename := "x1.jpg", referer := "", ifModifiedSince := ""
    remoteAddr := "192.0.2.7:50000" }

/-- The process state of the worked example: an empty cache and the image server
`https://img.example/`. -/
def exampleGlobals : Globals (List (String × Bytes)) :=
  { cache := [], imageServer := "https://img.example/", timeLastRequest := 0 }

/-- A world in which the origin sends a four-byte body in two reads and the client takes
everything. -/
def exampleWorld : World :=
  { origin := fun _ => .response [[1, 2], [3, 4]] [], clientAccepts := none
    tStart := 0, tProcessed := 5000000, tLast := 6000000, tEnd := 7000000 }

/-- The same world with a client that goes away after the first byte. -/
def lostClientWorld : World := { exampleWorld with clientAccepts := some 1 }

/-- A request whose type token is not an image type. -/
def thumbsRequest : Request := { exampleRequest with image_type := "thumbs" }

/-- The example request sent again by a browser that holds a copy. -/
def conditionalRequest : Request :=
  { exampleRequest with ifModifiedSince := "Sat, 01 Feb 2020 00:00:00 GMT" }

/-- A request whose filename has a stem of five characters. -/
def longStemRequest : Request := { exampleRequest with image_filename := "abcde.jpg" }

/-- A clock on which every sleep lasts exactly one second and every reading of the clock
takes one microsecond. -/
def steadyClock (i : Nat) : Int := (((i - 1) / 2 : Nat) : Int) * 1000000000 + (i : Int) * 1000

/-- A ping response that is valid JSON, names an image server and has no `tls` member:
`{"imageServer":"https://img.example/"}`. -/
def pingBodyWithoutTls : String := "\x7b\"imageServer\":\"https://img.example/\"\x7d"

/-! ## Properties of the matcher -/

theorem orElse_isSome {α : Type} (a : Option α) (f : Unit → Option α) :
    (a.orElse f).isSome = true ↔ a.isSome = true ∨ (f ()).isSome = true := by
  cases a <;> simp [Option.orElse]

theorem manyRun_isSome {α : Type} (p : Char → Bool) (k : List Char → Option α) :
    ∀ s : List Char, (manyRun p s k).isSome = true ↔
      ∃ u v, s = u ++ v ∧ (∀ c ∈ u, p c = true) ∧ (k v).isSome = true := by
  intro s
  induction s with
  | nil =>
    simp only [manyRun]
    constructor
    · intro h
      exact ⟨[], [], rfl, by simp, h⟩
    · rintro ⟨u, v, huv, -, hk⟩
      have hv : v = [] := (List.append_eq_nil.mp huv.symm).2
      subst hv
      exact hk
  | cons c t ih =>
    simp only [manyRun]
    by_cases hp : p c = true
    · rw [if_pos hp, orElse_isSome, ih]
      constructor
      · rintro (⟨u, v, huv, hu, hk⟩ | hk)
        · refine ⟨c :: u, v, by simp [huv], ?_, hk⟩
          intro d hd
          rcases List.mem_cons.mp hd with rfl | hd
          · exact hp
          · exact hu d hd
        · exact ⟨[], c :: t, rfl, by simp, hk⟩
      · rintro ⟨u, v, huv, hu, hk⟩
        cases u with
        | nil =>
          right
          simp only [List.nil_append] at huv
          rw [huv]
          exact hk
        | cons d u =>
          left
          simp only [List.cons_append, List.cons.injEq] at huv
          exact ⟨u, v, huv.2, fun e he => hu e (List.mem_cons_of_mem _ he), hk⟩
    · rw [if_neg hp]
      constructor
      · intro hk
        exact ⟨[], c :: t, rfl, by simp, hk⟩
      · rintro ⟨u, v, huv, hu, hk⟩
        cases u with
        | nil =>
          simp only [List.nil_append] at huv
          rw [huv]
          exact hk
        | cons d u =>
          simp only [List.cons_append, List.cons.injEq] at huv
          exact absurd (huv.1 ▸ hu d (List.mem_cons_self _ _)) hp

theorem Re.run_isSome {α : Type} (r : Re) :
    ∀ (s : List Char) (k : List Char → Option α), (r.run s k).isSome = true ↔
      ∃ u v, s = u ++ v ∧ r.Lang u ∧ (k v).isSome = true := by
  induction r with
  | eps =>
    intro s k
    simp only [Re.run, Re.Lang]
    constructor
    · intro h
      exact ⟨[], s, rfl, rfl, h⟩
    · rintro ⟨u, v, huv, rfl, hk⟩
      simpa [huv] using hk
  | cls p =>
    intro s k
    cases s with
    | nil =>
      simp only [Re.run, Re.Lang]
      constructor
      · intro h
        simp at h
      · rintro ⟨u, v, huv, ⟨c, rfl, -⟩, -⟩
        simp at huv
    | cons c t =>
      simp only [Re.run, Re.Lang]
      constructor
      · intro h
        by_cases hp : p c = true
        · rw [if_pos hp] at h
          exact ⟨[c], t, rfl, ⟨c, rfl, hp⟩, h⟩
        · rw [if_neg hp] at h
          simp at h
      · rintro ⟨u, v, huv, ⟨d, rfl, hd⟩, hk⟩
        simp only [List.singleton_append, List.cons.injEq] at huv
        obtain ⟨rfl, rfl⟩ := huv
        rw [if_pos hd]
        exact hk
  | seq a b iha ihb =>
    intro s k
    simp only [Re.run, Re.Lang]
    rw [iha]
    constructor
    · rintro ⟨u₁, v₁, rfl, ha, h⟩
      obtain ⟨u₂, v, rfl, hb, hk⟩ := (ihb _ _).mp h
      exact ⟨u₁ ++ u₂, v, by simp, ⟨u₁, u₂, rfl, ha, hb⟩, hk⟩
    · rintro ⟨u, v, rfl, ⟨u₁, u₂, rfl, ha, hb⟩, hk⟩
      exact ⟨u₁, u₂ ++ v, by simp, ha, (ihb _ _).mpr ⟨u₂, v, rfl, hb, hk⟩⟩
  | alt a b iha ihb =>
    intro s k
    simp only [Re.run, Re.Lang]
    rw [orElse_isSome, iha, ihb]
    constructor
    · rintro (⟨u, v, h, ha, hk⟩ | ⟨u, v, h, hb, hk⟩)
      · exact ⟨u, v, h, Or.inl ha, hk⟩
      · exact ⟨u, v, h, Or.inr hb, hk⟩
    · rintro ⟨u, v, h, ha | hb, hk⟩
      · exact Or.inl ⟨u, v, h, ha, hk⟩
      · exact Or.inr ⟨u, v, h, hb, hk⟩
  | many p =>
    intro s k
    simp only [Re.run, Re.Lang]
    exact manyRun_isSome p k s

theorem Regexp.matchAt_isSome (re : Regexp) (s : List Char) :
    (re.matchAt s).isSome = true ↔
      ∃ u v, s = u ++ v ∧ re.body.Lang u ∧ (re.eol = true → v = []) := by
  unfold Regexp.matchAt
  rw [Re.run_isSome]
  constructor
  · rintro ⟨u, v, h, hl, hk⟩
    refine ⟨u, v, h, hl, ?_⟩
    intro he
    cases v with
    | nil => rfl
    | cons c t => simp [he] at hk
  · rintro ⟨u, v, h, hl, hk⟩
    refine ⟨u, v, h, hl, ?_⟩
    by_cases he : re.eol = true
    · simp [hk he]
    · simp [he]

theorem Regexp.matchText_isSome (re : Regexp) (s : List Char) :
    (re.matchText s).isSome = true ↔ (re.matchAt s).isSome = true := by
  unfold Regexp.matchText
  cases re.matchAt s <;> simp

theorem Regexp.search_isSome (re : Regexp) :
    ∀ s : List Char, (re.search s).isSome = true ↔
      ∃ pre u v, s = pre ++ (u ++ v) ∧ re.body.Lang u ∧ (re.eol = true → v = []) := by
  intro s
  induction s with
  | nil =>
    simp only [Regexp.search]
    rw [Regexp.matchText_isSome, Regexp.matchAt_isSome]
    constructor
    · rintro ⟨u, v, h, hl, hk⟩
      exact ⟨[], u, v, by simpa using h, hl, hk⟩
    · rintro ⟨pre, u, v, h, hl, hk⟩
      have hpre : pre = [] := by
        cases pre
        · rfl
        · simp at h
      subst hpre
      exact ⟨u, v, by simpa using h, hl, hk⟩
  | cons c t ih =>
    simp only [Regexp.search]
    rw [orElse_isSome, Regexp.matchText_isSome, Regexp.matchAt_isSome, ih]
    constructor
    · rintro (⟨u, v, h, hl, hk⟩ | ⟨pre, u, v, h, hl, hk⟩)
      · exact ⟨[], u, v, by simpa using h, hl, hk⟩
      · exact ⟨c :: pre, u, v, by simp [h], hl, hk⟩
    · rintro ⟨pre, u, v, h, hl, hk⟩
      cases pre with
      | nil => exact Or.inl ⟨u, v, by simpa using h, hl, hk⟩
      | cons d pre =>
        simp only [List.cons_append, List.cons.injEq] at h
        exact Or.inr ⟨pre, u, v, h.2, hl, hk⟩

theorem Re.lang_chr (c : Char) (u : List Char) : (Re.chr c).Lang u ↔ u = [c] := by
  simp only [Re.chr, Re.Lang]
  constructor
  · rintro ⟨d, rfl, hd⟩
    simp only [beq_iff_eq] at hd
    rw [hd]
  · intro h
    exact ⟨c, h, by simp⟩

theorem Re.lang_lit : ∀ (l u : List Char), (Re.lit l).Lang u ↔ u = l := by
  intro l
  induction l with
  | nil =>
    intro u
    simp [Re.lit, Re.Lang]
  | cons c t ih =>
    intro u
    simp only [Re.lit, Re.Lang]
    constructor
    · rintro ⟨u₁, u₂, rfl, h₁, h₂⟩
      have h₁ := (Re.lang_chr c u₁).mp h₁
      rw [h₁, (ih u₂).mp h₂]
      rfl
    · intro h
      exact ⟨[c], t, by simp [h], (Re.lang_chr c [c]).mpr rfl, (ih t).mpr rfl⟩

theorem Re.lang_times (p : Char → Bool) :
    ∀ (n : Nat) (u : List Char),
      ((Re.cls p).times n).Lang u ↔ u.length = n ∧ ∀ c ∈ u, p c = true := by
  intro n
  induction n with
  | zero =>
    intro u
    simp only [Re.times, Re.Lang]
    constructor
    · rintro rfl
      simp
    · rintro ⟨h, -⟩
      exact List.length_eq_zero.mp h
  | succ n ih =>
    intro u
    simp only [Re.times, Re.Lang]
    constructor
    · rintro ⟨u₁, u₂, rfl, ⟨c, rfl, hc⟩, h₂⟩
      obtain ⟨hl, hall⟩ := (ih u₂).mp h₂
      refine ⟨by simp [hl], ?_⟩
      intro d hd
      simp only [List.singleton_append, List.mem_cons] at hd
      rcases hd with rfl | hd
      · exact hc
      · exact hall d hd
    · rintro ⟨hl, hall⟩
      cases u with
      | nil => simp at hl
      | cons c t =>
        refine ⟨[c], t, rfl, ⟨c, rfl, hall c (List.mem_cons_self _ _)⟩, (ih t).mpr ⟨?_, ?_⟩⟩
        · simpa using hl
        · exact fun d hd => hall d (List.mem_cons_of_mem _ hd)

theorem Re.lang_upTo (p : Char → Bool) :
    ∀ (n : Nat) (u : List Char),
      ((Re.cls p).upTo n).Lang u ↔ u.length ≤ n ∧ ∀ c ∈ u, p c = true := by
  intro n
  induction n with
  | zero =>
    intro u
    simp only [Re.upTo, Re.Lang]
    constructor
    · rintro rfl
      simp
    · rintro ⟨h, -⟩
      exact List.length_eq_zero.mp (Nat.le_zero.mp h)
  | succ n ih =>
    intro u
    simp only [Re.upTo, Re.Lang]
    constructor
    · rintro (⟨u₁, u₂, rfl, ⟨c, rfl, hc⟩, h₂⟩ | rfl)
      · obtain ⟨hl, hall⟩ := (ih u₂).mp h₂
        refine ⟨by simpa using hl, ?_⟩
        intro d hd
        simp only [List.singleton_append, List.mem_cons] at hd
        rcases hd with rfl | hd
        · exact hc
        · exact hall d hd
      · simp
    · rintro ⟨hl, hall⟩
      cases u with
      | nil => exact Or.inr rfl
      | cons c t =>
        left
        refine ⟨[c], t, rfl, ⟨c, rfl, hall c (List.mem_cons_self _ _)⟩, (ih t).mpr ⟨?_, ?_⟩⟩
        · simpa using hl
        · exact fun d hd => hall d (List.mem_cons_of_mem _ hd)

theorem Re.lang_between (p : Char → Bool) (lo hi : Nat) (hlh : lo ≤ hi) (u : List Char) :
    ((Re.cls p).between lo hi).Lang u ↔
      (lo ≤ u.length ∧ u.length ≤ hi) ∧ ∀ c ∈ u, p c = true := by
  simp only [Re.between, Re.Lang]
  constructor
  · rintro ⟨u₁, u₂, rfl, h₁, h₂⟩
    obtain ⟨hl₁, ha₁⟩ := (Re.lang_times p lo u₁).mp h₁
    obtain ⟨hl₂, ha₂⟩ := (Re.lang_upTo p (hi - lo) u₂).mp h₂
    refine ⟨⟨by simp [hl₁], by simp only [List.length_append]; omega⟩, ?_⟩
    intro c hc
    rcases List.mem_append.mp hc with hc | hc
    · exact ha₁ c hc
    · exact ha₂ c hc
  · rintro ⟨⟨h₁, h₂⟩, hall⟩
    refine ⟨u.take lo, u.drop lo, (List.take_append_drop lo u).symm, ?_, ?_⟩
    · refine (Re.lang_times p lo _).mpr ⟨by simp [h₁], ?_⟩
      exact fun c hc => hall c (List.mem_of_mem_take hc)
    · refine (Re.lang_upTo p (hi - lo) _).mpr ⟨by simp only [List.length_drop]; omega, ?_⟩
      exact fun c hc => hall c (List.mem_of_mem_drop hc)

/-- The chapter pattern accepts exactly the tokens of 32 lowercase hexadecimal
characters. -/
theorem matchString_chapterHashRe (s : String) :
    MatchString chapterHashRe s = true ↔ IsChapterHash s := by
  unfold MatchString Regexp.find IsChapterHash
  simp only [chapterHashRe, if_true]
  rw [Regexp.matchText_isSome, Regexp.matchAt_isSome]
  simp only [forall_const]
  constructor
  · rintro ⟨u, v, h, hl, rfl⟩
    obtain ⟨hlen, hall⟩ := (Re.lang_times isLowerHex 32 u).mp hl
    simp only [List.append_nil] at h
    rw [h]
    refine ⟨?_, hall⟩
    rw [← hlen, ← h]
    rfl
  · rintro ⟨hlen, hall⟩
    exact ⟨s.toList, [], by simp, (Re.lang_times isLowerHex 32 _).mpr ⟨hlen, hall⟩, rfl⟩

theorem lang_extensions (u : List Char) :
    (Re.alt (Re.lit "jpg".toList) (.alt (Re.lit "jpeg".toList)
      (.alt (Re.lit "png".toList) (Re.lit "gif".toList)))).Lang u ↔ u ∈ imageExtensions := by
  show ((Re.lit "jpg".toList).Lang u ∨ (Re.lit "jpeg".toList).Lang u ∨
    (Re.lit "png".toList).Lang u ∨ (Re.lit "gif".toList).Lang u) ↔ _
  rw [Re.lang_lit, Re.lang_lit, Re.lang_lit, Re.lang_lit]
  simp only [imageExtensions, List.mem_cons, List.mem_singleton, List.not_mem_nil, or_false]

/-- The filename pattern, which has no `^`, accepts exactly the tokens that end in an
alphanumeric character, a dot and an image extension. -/
theorem matchString_imageFilenameRe (s : String) :
    MatchString imageFilenameRe s = true ↔ EndsInImageName s := by
  unfold MatchString Regexp.find EndsInImageName
  simp only [imageFilenameRe, Bool.false_eq_true, if_false]
  rw [Regexp.search_isSome]
  simp only [forall_const]
  constructor
  · rintro ⟨pre, u, v, h, hl, rfl⟩
    obtain ⟨stem, rest, rfl, hstem, dot, ext, rfl, hdot, hext⟩ := hl
    obtain ⟨⟨hlo, -⟩, hall⟩ := (Re.lang_between isAlnum 1 4 (by decide) stem).mp hstem
    have hdot := (Re.lang_chr '.' dot).mp hdot
    subst hdot
    have hext := (lang_extensions ext).mp hext
    have hne : stem ≠ [] := by
      intro h0
      rw [h0] at hlo
      simp at hlo
    refine ⟨pre ++ stem.dropLast, stem.getLast hne, ext, ?_, ?_, hext⟩
    · rw [h]
      conv_lhs => rw [← List.dropLast_append_getLast hne]
      simp
    · exact hall _ (List.getLast_mem hne)
  · rintro ⟨pre, c, ext, h, hc, hext⟩
    refine ⟨pre, c :: '.' :: ext, [], by rw [h]; simp, ?_, rfl⟩
    refine ⟨[c], '.' :: ext, rfl, ?_, ['.'], ext, rfl, (Re.lang_chr '.' _).mpr rfl,
      (lang_extensions ext).mpr hext⟩
    refine (Re.lang_between isAlnum 1 4 (by decide) [c]).mpr ⟨by simp, ?_⟩
    intro d hd
    rw [List.mem_singleton.mp hd]
    exact hc

/-! ## Properties of the copy loop -/

theorem teeCopy_buffer_extends (chunks : List Bytes) :
    ∀ a : Option Nat, ∃ t, (teeCopy chunks a).2 = (teeCopy chunks a).1 ++ t := by
  induction chunks with
  | nil =>
    intro a
    exact ⟨[], by simp [teeCopy]⟩
  | cons c rest ih =>
    intro a
    cases a with
    | none =>
      obtain ⟨t, ht⟩ := ih none
      exact ⟨t, by simp only [teeCopy]; rw [ht]; simp⟩
    | some n =>
      simp only [teeCopy]
      by_cases h : c.length ≤ n
      · rw [if_pos h]
        obtain ⟨t, ht⟩ := ih (some (n - c.length))
        exact ⟨t, by simp only []; rw [ht]; simp⟩
      · rw [if_neg h]
        exact ⟨c.drop n, by simp⟩

theorem teeCopy_body_extends (chunks : List Bytes) :
    ∀ a : Option Nat, ∃ t, chunks.flatten = (teeCopy chunks a).2 ++ t := by
  induction chunks with
  | nil =>
    intro a
    exact ⟨[], by simp [teeCopy]⟩
  | cons c rest ih =>
    intro a
    cases a with
    | none =>
      obtain ⟨t, ht⟩ := ih none
      exact ⟨t, by simp only [teeCopy, List.flatten_cons]; rw [ht]; simp⟩
    | some n =>
      simp only [teeCopy]
      by_cases h : c.length ≤ n
      · rw [if_pos h]
        obtain ⟨t, ht⟩ := ih (some (n - c.length))
        exact ⟨t, by simp only [List.flatten_cons]; rw [ht]; simp⟩
      · rw [if_neg h]
        exact ⟨rest.flatten, by simp⟩

theorem teeCopy_complete (chunks : List Bytes) (lost : Bytes) (a : Option Nat)
    (h : (teeCopy chunks a).1 = chunks.flatten ++ lost) :
    (teeCopy chunks a).2 = chunks.flatten ++ lost ∧ lost = [] := by
  obtain ⟨t₁, h₁⟩ := teeCopy_buffer_extends chunks a
  obtain ⟨t₂, h₂⟩ := teeCopy_body_extends chunks a
  have hlen : chunks.flatten.length = (chunks.flatten.length + lost.length) + t₁.length +
      t₂.length := by
    have e := congrArg List.length h₂
    rw [h₁, h] at e
    simp only [List.length_append] at e
    omega
  have hl : lost = [] := List.length_eq_zero.mp (by omega)
  have ht₁ : t₁ = [] := List.length_eq_zero.mp (by omega)
  subst hl
  subst ht₁
  refine ⟨?_, rfl⟩
  rw [h₁, h]
  simp

theorem teeCopy_none (chunks : List Bytes) :
    teeCopy chunks none = (chunks.flatten, chunks.flatten) := by
  induction chunks with
  | nil => rfl
  | cons c rest ih => simp only [teeCopy, ih, List.flatten_cons]

theorem teeCopy_all (chunks : List Bytes) :
    ∀ n, chunks.flatten.length ≤ n →
      teeCopy chunks (some n) = (chunks.flatten, chunks.flatten) := by
  induction chunks with
  | nil =>
    intro n _
    rfl
  | cons c rest ih =>
    intro n hn
    simp only [List.flatten_cons, List.length_append] at hn
    have hc : c.length ≤ n := by omega
    simp only [teeCopy, if_pos hc, ih (n - c.length) (by omega), List.flatten_cons]

/-- What the copy does when the client goes away before the end of the chunks read: the
client has the first `n` bytes and the buffer holds the chunks up to and including the
first one that the client did not take in full. -/
theorem teeCopy_short (chunks : List Bytes) :
    ∀ n, n < chunks.flatten.length →
      ∃ i, i < chunks.length ∧ (chunks.take i).flatten.length ≤ n ∧
        n < (chunks.take (i + 1)).flatten.length ∧
        teeCopy chunks (some n) = (chunks.flatten.take n, (chunks.take (i + 1)).flatten) := by
  induction chunks with
  | nil =>
    intro n hn
    simp at hn
  | cons c rest ih =>
    intro n hn
    simp only [List.flatten_cons, List.length_append] at hn
    by_cases hc : c.length ≤ n
    · obtain ⟨i, hi, hle, hlt, heq⟩ := ih (n - c.length) (by omega)
      refine ⟨i + 1, by simp only [List.length_cons]; omega, ?_, ?_, ?_⟩
      · simp only [List.take_succ_cons, List.flatten_cons, List.length_append]
        omega
      · simp only [List.take_succ_cons, List.flatten_cons, List.length_append]
        omega
      · simp only [teeCopy, if_pos hc, heq, List.take_succ_cons, List.flatten_cons]
        rw [List.take_append_eq_append_take, List.take_of_length_le hc]
    · refine ⟨0, by simp, by simp, ?_, ?_⟩
      · simp only [List.take_succ_cons, List.take_zero, List.flatten_cons, List.flatten_nil,
          List.append_nil]
        omega
      · simp only [teeCopy, if_neg hc, List.take_succ_cons, List.take_zero,
          List.flatten_cons, List.flatten_nil, List.append_nil]
        rw [List.take_append_of_le_length (by omega)]

theorem plainCopy_extends (image : Bytes) (a : Option Nat) :
    ∃ t, image = plainCopy image a ++ t := by
  cases a with
  | none => exact ⟨[], by simp [plainCopy]⟩
  | some n => exact ⟨image.drop n, by simp [plainCopy]⟩

/-! ## Properties of RequestHandler -/

theorem validTokens_checks (r : Request) (h : ValidTokens r) :
    ¬ (r.image_type ≠ "data" ∧ r.image_type ≠ "data-saver") ∧
      ¬ (MatchString chapterHashRe r.chapter_hash = false) ∧
      ¬ (MatchString imageFilenameRe r.image_filename = false) := by
  obtain ⟨ht, hh, hf⟩ := h
  refine ⟨?_, ?_, ?_⟩
  · rintro ⟨h₁, h₂⟩
    rcases ht with ht | ht
    · exact h₁ ht
    · exact h₂ ht
  · rw [(matchString_chapterHashRe _).mpr hh]
    simp
  · rw [(matchString_imageFilenameRe _).mpr hf]
    simp

theorem exampleRequest_valid : ValidTokens exampleRequest :=
  ⟨Or.inl rfl, (matchString_chapterHashRe _).mp (by decide),
    (matchString_imageFilenameRe _).mp (by decide)⟩

theorem RequestHandler_invalid_eq {σ : Type} (C : CacheOps σ) (g : Globals σ)
    (w : World) (r : Request) (h : ¬ ValidTokens r) :
    RequestHandler C g w r = badRequest g := by
  unfold RequestHandler
  by_cases h₁ : r.image_type ≠ "data" ∧ r.image_type ≠ "data-saver"
  · rw [if_pos h₁]
  · rw [if_neg h₁]
    by_cases h₂ : MatchString chapterHashRe r.chapter_hash = false
    · rw [if_pos h₂]
    · rw [if_neg h₂]
      by_cases h₃ : MatchString imageFilenameRe r.image_filename = false
      · rw [if_pos h₃]
      · exfalso
        apply h
        refine ⟨?_, (matchString_chapterHashRe _).mp (by simpa using h₂),
          (matchString_imageFilenameRe _).mp (by simpa using h₃)⟩
        by_cases hd : r.image_type = "data"
        · exact Or.inl hd
        · by_cases hs : r.image_type = "data-saver"
          · exact Or.inr hs
          · exact absurd ⟨hd, hs⟩ h₁

/-- C1: a request whose type token is neither `data` nor `data-saver`, or whose chapter
token is not 32 lowercase hexadecimal characters, or whose filename does not end in an
alphanumeric character followed by `.jpg`, `.jpeg`, `.png` or `.gif`, is answered with
status 400; the handler does nothing to the outside world (no cache lookup, no cache store,
no origin fetch, no log line) and leaves the process state as it was. -/
theorem RequestHandler_rejects_invalid {σ : Type} (C : CacheOps σ) (g : Globals σ)
    (w : World) (r : Request)
    (h : (r.image_type ≠ "data" ∧ r.image_type ≠ "data-saver") ∨
      ¬ IsChapterHash r.chapter_hash ∨ ¬ EndsInImageName r.image_filename) :
    (RequestHandler C g w r).reply.status = some 400 ∧
      (RequestHandler C g w r).reply.body = [] ∧
      (RequestHandler C g w r).events = [] ∧
      (RequestHandler C g w r).globals = g := by
  have hv : ¬ ValidTokens r := by
    rintro ⟨ht, hh, hf⟩
    rcases h with ⟨h₁, h₂⟩ | h | h
    · rcases ht with ht | ht
      · exact h₁ ht
      · exact h₂ ht
    · exact h hh
    · exact h hf
  rw [RequestHandler_invalid_eq C g w r hv]
  exact ⟨rfl, rfl, rfl, rfl⟩

theorem RequestHandler_rejects_invalid_witness :
    ((thumbsRequest.image_type ≠ "data" ∧ thumbsRequest.image_type ≠ "data-saver") ∨
      ¬ IsChapterHash thumbsRequest.chapter_hash ∨
      ¬ EndsInImageName thumbsRequest.image_filename) ∧
    ((RequestHandler listCache exampleGlobals exampleWorld thumbsRequest).reply.status =
        some 400 ∧
      (RequestHandler listCache exampleGlobals exampleWorld thumbsRequest).reply.body = [] ∧
      (RequestHandler listCache exampleGlobals exampleWorld thumbsRequest).events = [] ∧
      (RequestHandler listCache exampleGlobals exampleWorld thumbsRequest).globals =
        exampleGlobals) :=
  ⟨Or.inl (by decide),
    RequestHandler_rejects_invalid listCache exampleGlobals exampleWorld thumbsRequest
      (Or.inl (by decide))⟩

/-- C4: a request whose three tokens pass validation and that carries a non-empty
`If-Modified-Since` header is answered with status 304 and an empty body; the handler looks
nothing up in the cache, stores nothing, fetches nothing from the origin and leaves the
process state as it was, whatever the cache holds and whatever the Referer is. -/
theorem RequestHandler_not_modified {σ : Type} (C : CacheOps σ) (g : Globals σ)
    (w : World) (r : Request) (hv : ValidTokens r) (hc : r.ifModifiedSince ≠ "") :
    (RequestHandler C g w r).reply.status = some 304 ∧
      (RequestHandler C g w r).reply.body = [] ∧
      cacheLookups (RequestHandler C g w r).events = [] ∧
      cacheStores (RequestHandler C g w r).events = [] ∧
      fetchedUrls (RequestHandler C g w r).events = [] ∧
      (RequestHandler C g w r).globals = g := by
  obtain ⟨h₁, h₂, h₃⟩ := validTokens_checks r hv
  unfold RequestHandler
  rw [if_neg h₁, if_neg h₂, if_neg h₃]
  simp only [if_pos hc, logLine, cacheLookups, cacheStores, fetchedUrls, and_self]

theorem RequestHandler_not_modified_witness :
    (ValidTokens conditionalRequest ∧ conditionalRequest.ifModifiedSince ≠ "") ∧
    ((RequestHandler listCache exampleGlobals exampleWorld conditionalRequest).reply.status =
        some 304 ∧
      (RequestHandler listCache exampleGlobals exampleWorld conditionalRequest).reply.body =
        [] ∧
      cacheLookups (RequestHandler listCache exampleGlobals exampleWorld
        conditionalRequest).events = [] ∧
      cacheStores (RequestHandler listCache exampleGlobals exampleWorld
        conditionalRequest).events = [] ∧
      fetchedUrls (RequestHandler listCache exampleGlobals exampleWorld
        conditionalRequest).events = [] ∧
      (RequestHandler listCache exampleGlobals exampleWorld conditionalRequest).globals =
        exampleGlobals) :=
  ⟨⟨exampleRequest_valid, by decide⟩,
    RequestHandler_not_modified listCache exampleGlobals exampleWorld conditionalRequest
      exampleRequest_valid (by decide)⟩

theorem header_get_cache_tag (tag t₁ t₂ : String) :
    Header.get (((((Header.set [] "Access-Control-Allow-Origin" "https://mangadex.org").set
      "Access-Control-Expose-Headers" "*").set "X-Cache" tag).set "X-Time-Taken" t₁).set
      "X-Time-Taken" t₂) "X-Cache" = tag := by
  simp [Header.set, Header.get, List.filter, List.find?]

/-- The miss path when the origin answers. -/
theorem RequestHandler_miss {σ : Type} (C : CacheOps σ) (g : Globals σ) (w : World)
    (r : Request) (hv : ValidTokens r) (hc : r.ifModifiedSince = "")
    (hm : C.get g.cache (sanitizedUrl r) = none) (chunks : List Bytes) (lost : Bytes)
    (ho : w.origin (g.imageServer ++ sanitizedUrl r) = .response chunks lost) :
    (RequestHandler C g w r).reply.status = some 200 ∧
      (RequestHandler C g w r).reply.panicked = false ∧
      (RequestHandler C g w r).reply.header.get "X-Cache" = "MISS" ∧
      (RequestHandler C g w r).reply.body = (teeCopy chunks w.clientAccepts).1 ∧
      cacheLookups (RequestHandler C g w r).events = [sanitizedUrl r] ∧
      fetchedUrls (RequestHandler C g w r).events = [g.imageServer ++ sanitizedUrl r] ∧
      cacheStores (RequestHandler C g w r).events =
        [(sanitizedUrl r, (teeCopy chunks w.clientAccepts).2)] ∧
      (RequestHandler C g w r).globals =
        { g with cache := C.set g.cache (sanitizedUrl r) (teeCopy chunks w.clientAccepts).2
                 timeLastRequest := w.tLast } := by
  obtain ⟨h₁, h₂, h₃⟩ := validTokens_checks r hv
  unfold RequestHandler
  rw [if_neg h₁, if_neg h₂, if_neg h₃]
  simp only [hc, ne_eq, not_true_eq_false, if_false, hm, ho, logLine, cacheLookups,
    cacheStores, fetchedUrls, List.cons_append, List.nil_append, header_get_cache_tag,
    and_self]

/-- The miss path when the fetch from the origin fails. -/
theorem RequestHandler_miss_error {σ : Type} (C : CacheOps σ) (g : Globals σ) (w : World)
    (r : Request) (hv : ValidTokens r) (hc : r.ifModifiedSince = "")
    (hm : C.get g.cache (sanitizedUrl r) = none) (msg : String)
    (ho : w.origin (g.imageServer ++ sanitizedUrl r) = .error msg) :
    (RequestHandler C g w r).reply.status = none ∧
      (RequestHandler C g w r).reply.panicked = true ∧
      (RequestHandler C g w r).reply.body = [] ∧
      cacheLookups (RequestHandler C g w r).events = [sanitizedUrl r] ∧
      fetchedUrls (RequestHandler C g w r).events = [g.imageServer ++ sanitizedUrl r] ∧
      cacheStores (RequestHandler C g w r).events = [] ∧
      (RequestHandler C g w r).globals = g := by
  obtain ⟨h₁, h₂, h₃⟩ := validTokens_checks r hv
  unfold RequestHandler
  rw [if_neg h₁, if_neg h₂, if_neg h₃]
  simp only [hc, ne_eq, not_true_eq_false, if_false, hm, ho, logLine, cacheLookups,
    cacheStores, fetchedUrls, List.cons_append, List.nil_append, and_self]

/-- The hit path. -/
theorem RequestHandler_hit {σ : Type} (C : CacheOps σ) (g : Globals σ) (w : World)
    (r : Request) (hv : ValidTokens r) (hc : r.ifModifiedSince = "") (image : Bytes)
    (hh : C.get g.cache (sanitizedUrl r) = some image) :
    (RequestHandler C g w r).reply.status = some 200 ∧
      (RequestHandler C g w r).reply.panicked = false ∧
      (RequestHandler C g w r).reply.header.get "X-Cache" = "HIT" ∧
      (RequestHandler C g w r).reply.body = plainCopy image w.clientAccepts ∧
      cacheLookups (RequestHandler C g w r).events = [sanitizedUrl r] ∧
      fetchedUrls (RequestHandler C g w r).events = [] ∧
      cacheStores (RequestHandler C g w r).events = [] ∧
      (RequestHandler C g w r).globals = { g with timeLastRequest := w.tLast } := by
  obtain ⟨h₁, h₂, h₃⟩ := validTokens_checks r hv
  unfold RequestHandler
  rw [if_neg h₁, if_neg h₂, if_neg h₃]
  simp only [hc, ne_eq, not_true_eq_false, if_false, hh, logLine, cacheLookups,
    cacheStores, fetchedUrls, header_get_cache_tag, and_self]

/-- What the code guarantees about cache keys: whenever the handler looks a key up or
stores under a key, the key is the one built from the three tokens and the tokens pass the
three checks (the filename only has to end in an alphanumeric character, a dot and an image
extension). -/
theorem RequestHandler_cache_keys {σ : Type} (C : CacheOps σ) (g : Globals σ) (w : World)
    (r : Request) :
    (∀ k ∈ cacheLookups (RequestHandler C g w r).events, k = sanitizedUrl r ∧ ValidTokens r) ∧
      (∀ p ∈ cacheStores (RequestHandler C g w r).events,
        p.1 = sanitizedUrl r ∧ ValidTokens r) := by
  by_cases hv : ValidTokens r
  · by_cases hc : r.ifModifiedSince = ""
    · cases hm : C.get g.cache (sanitizedUrl r) with
      | none =>
        cases ho : w.origin (g.imageServer ++ sanitizedUrl r) with
        | error msg =>
          obtain ⟨-, -, -, hl, -, hst, -⟩ := RequestHandler_miss_error C g w r hv hc hm msg ho
          rw [hl, hst]
          simp [hv]
        | response chunks lost =>
          obtain ⟨-, -, -, -, hl, -, hst, -⟩ :=
            RequestHandler_miss C g w r hv hc hm chunks lost ho
          rw [hl, hst]
          simp [hv]
      | some image =>
        obtain ⟨-, -, -, -, hl, -, hst, -⟩ := RequestHandler_hit C g w r hv hc image hm
        rw [hl, hst]
        simp [hv]
    · obtain ⟨h₁, h₂, h₃⟩ := validTokens_checks r hv
      unfold RequestHandler
      rw [if_neg h₁, if_neg h₂, if_neg h₃]
      simp [hc, logLine, cacheLookups, cacheStores]
  · rw [RequestHandler_invalid_eq C g w r hv]
    simp [badRequest, cacheLookups, cacheStores]

/-- C3, as stated, fails: with the image server `https://img.example/` the URL fetched for
the example request is not `https://img.example/data/0123456789abcdef0123456789abcdef/x1.jpg`;
the handler appends the key, which starts with a slash, to the image server as it is. -/
theorem RequestHandler_example_url_differs :
    exampleGlobals.imageServer = "https://img.example/" ∧
      listCache.get exampleGlobals.cache (sanitizedUrl exampleRequest) = none ∧
      fetchedUrls (RequestHandler listCache exampleGlobals exampleWorld exampleRequest).events ≠
        ["https://img.example/data/0123456789abcdef0123456789abcdef/x1.jpg"] := by
  decide

/-- C3, amended: with the image server `https://img.example/` and a request for
`/data/0123456789abcdef0123456789abcdef/x1.jpg` without `If-Modified-Since`, the handler
builds the key `/data/0123456789abcdef0123456789abcdef/x1.jpg`, looks it up in the cache
and, on a miss, fetches exactly the image server followed by the key, that is
`https://img.example//data/0123456789abcdef0123456789abcdef/x1.jpg`. -/
theorem RequestHandler_example_url {σ : Type} (C : CacheOps σ) (g : Globals σ) (w : World)
    (r : Request) (hs : g.imageServer = "https://img.example/")
    (ht : r.image_type = "data") (hh : r.chapter_hash = "0123456789abcdef0123456789abcdef")
    (hf : r.image_filename = "x1.jpg") (hc : r.ifModifiedSince = "")
    (hm : C.get g.cache "/data/0123456789abcdef0123456789abcdef/x1.jpg" = none) :
    sanitizedUrl r = "/data/0123456789abcdef0123456789abcdef/x1.jpg" ∧
      cacheLookups (RequestHandler C g w r).events =
        ["/data/0123456789abcdef0123456789abcdef/x1.jpg"] ∧
      fetchedUrls (RequestHandler C g w r).events =
        ["https://img.example//data/0123456789abcdef0123456789abcdef/x1.jpg"] := by
  have hkey : sanitizedUrl r = "/data/0123456789abcdef0123456789abcdef/x1.jpg" := by
    unfold sanitizedUrl
    rw [ht, hh, hf]
    decide
  have hurl : g.imageServer ++ sanitizedUrl r =
      "https://img.example//data/0123456789abcdef0123456789abcdef/x1.jpg" := by
    rw [hs, hkey]
    decide
  have hv : ValidTokens r := by
    refine ⟨Or.inl ht, ?_, ?_⟩
    · rw [hh]
      exact (matchString_chapterHashRe _).mp (by decide)
    · rw [hf]
      exact (matchString_imageFilenameRe _).mp (by decide)
  rw [← hkey] at hm
  refine ⟨hkey, ?_⟩
  cases ho : w.origin (g.imageServer ++ sanitizedUrl r) with
  | error msg =>
    obtain ⟨-, -, -, hl, hu, -, -⟩ := RequestHandler_miss_error C g w r hv hc hm msg ho
    rw [hl, hu, hurl, hkey]
    exact ⟨rfl, rfl⟩
  | response chunks lost =>
    obtain ⟨-, -, -, -, hl, hu, -, -⟩ := RequestHandler_miss C g w r hv hc hm chunks lost ho
    rw [hl, hu, hurl, hkey]
    exact ⟨rfl, rfl⟩

theorem RequestHandler_example_url_witness :
    (exampleGlobals.imageServer = "https://img.example/" ∧
      exampleRequest.image_type = "data" ∧
      exampleRequest.chapter_hash = "0123456789abcdef0123456789abcdef" ∧
      exampleRequest.image_filename = "x1.jpg" ∧ exampleRequest.ifModifiedSince = "" ∧
      listCache.get exampleGlobals.cache "/data/0123456789abcdef0123456789abcdef/x1.jpg" =
        none) ∧
    (sanitizedUrl exampleRequest = "/data/0123456789abcdef0123456789abcdef/x1.jpg" ∧
      cacheLookups (RequestHandler listCache exampleGlobals exampleWorld
        exampleRequest).events = ["/data/0123456789abcdef0123456789abcdef/x1.jpg"] ∧
      fetchedUrls (RequestHandler listCache exampleGlobals exampleWorld
        exampleRequest).events =
        ["https://img.example//data/0123456789abcdef0123456789abcdef/x1.jpg"]) :=
  ⟨⟨rfl, rfl, rfl, rfl, rfl, rfl⟩,
    RequestHandler_example_url listCache exampleGlobals exampleWorld exampleRequest
      rfl rfl rfl rfl rfl rfl⟩

/-- C5, the failing input: the filename `abcde.jpg` has a stem of five characters, so it
does not have the shape of a cache-key filename, yet the handler looks up and stores the key
`/data/0123456789abcdef0123456789abcdef/abcde.jpg`. -/
theorem RequestHandler_long_stem_reaches_cache :
    MatchString cacheKeyFilenameRe longStemRequest.image_filename = false ∧
      cacheLookups (RequestHandler listCache exampleGlobals exampleWorld
        longStemRequest).events = ["/data/0123456789abcdef0123456789abcdef/abcde.jpg"] ∧
      cacheStores (RequestHandler listCache exampleGlobals exampleWorld
        longStemRequest).events =
        [("/data/0123456789abcdef0123456789abcdef/abcde.jpg", [1, 2, 3, 4])] := by
  decide

/-- C9, as stated, fails: the origin sends `[1, 2]` then `[3, 4]` and the client goes away
after one byte; the handler stores `[1, 2]` under the key, which is neither nothing nor the
whole body `[1, 2, 3, 4]`, and only `[1]` was delivered. -/
theorem RequestHandler_stores_truncated_body :
    (RequestHandler listCache exampleGlobals lostClientWorld exampleRequest).reply.body =
        [1] ∧
      (lostClientWorld.origin (exampleGlobals.imageServer ++
        sanitizedUrl exampleRequest)).wholeBody = [1, 2, 3, 4] ∧
      listCache.get (RequestHandler listCache exampleGlobals lostClientWorld
        exampleRequest).globals.cache (sanitizedUrl exampleRequest) = some [1, 2] ∧
      ¬ (cacheStores (RequestHandler listCache exampleGlobals lostClientWorld
          exampleRequest).events = [] ∨
        cacheStores (RequestHandler listCache exampleGlobals lostClientWorld
          exampleRequest).events = [(sanitizedUrl exampleRequest, [1, 2, 3, 4])]) := by
  decide

/-- C9, amended: on a cache miss of a valid request without `If-Modified-Since`, when the
fetch from the origin fails nothing is stored and the cache is left as it was. When the
origin answers, the handler stores under the key, once, the chunks it has read from the
body when the copy stops, whether or not they reached the client. If the client takes every
byte read, the client gets all the chunks read and they are stored, which is the whole
upstream body when no read failed. If the client goes away after `n` bytes, it has
received the first `n` bytes, and the handler stores the chunks up to and including the
first one the client did not take in full. In particular the whole upstream body is stored
whenever the whole body was delivered. -/
theorem RequestHandler_stores_what_was_read {σ : Type} (C : CacheOps σ) (g : Globals σ)
    (w : World) (r : Request) (hv : ValidTokens r) (hc : r.ifModifiedSince = "")
    (hm : C.get g.cache (sanitizedUrl r) = none) :
    (∀ msg, w.origin (g.imageServer ++ sanitizedUrl r) = .error msg →
      cacheStores (RequestHandler C g w r).events = [] ∧
        (RequestHandler C g w r).globals = g) ∧
    (∀ chunks lost, w.origin (g.imageServer ++ sanitizedUrl r) = .response chunks lost →
      ((∀ n, w.clientAccepts = some n → chunks.flatten.length ≤ n) →
        (RequestHandler C g w r).reply.body = chunks.flatten ∧
          cacheStores (RequestHandler C g w r).events =
            [(sanitizedUrl r, chunks.flatten)] ∧
          (RequestHandler C g w r).globals.cache =
            C.set g.cache (sanitizedUrl r) chunks.flatten) ∧
      (∀ n, w.clientAccepts = some n → n < chunks.flatten.length →
        ∃ i, i < chunks.length ∧ (chunks.take i).flatten.length ≤ n ∧
          n < (chunks.take (i + 1)).flatten.length ∧
          (RequestHandler C g w r).reply.body = chunks.flatten.take n ∧
          cacheStores (RequestHandler C g w r).events =
            [(sanitizedUrl r, (chunks.take (i + 1)).flatten)] ∧
          (RequestHandler C g w r).globals.cache =
            C.set g.cache (sanitizedUrl r) (chunks.take (i + 1)).flatten) ∧
      ((RequestHandler C g w r).reply.body = chunks.flatten ++ lost →
        cacheStores (RequestHandler C g w r).events =
          [(sanitizedUrl r, chunks.flatten ++ lost)])) := by
  constructor
  · intro msg ho
    obtain ⟨-, -, -, -, -, hst, hgl⟩ := RequestHandler_miss_error C g w r hv hc hm msg ho
    exact ⟨hst, hgl⟩
  · intro chunks lost ho
    obtain ⟨-, -, -, hbody, -, -, hst, hgl⟩ :=
      RequestHandler_miss C g w r hv hc hm chunks lost ho
    refine ⟨?_, ?_, ?_⟩
    · intro hall
      have hcopy : teeCopy chunks w.clientAccepts = (chunks.flatten, chunks.flatten) := by
        cases ha : w.clientAccepts with
        | none => exact teeCopy_none chunks
        | some n => exact teeCopy_all chunks n (hall n ha)
      rw [hbody, hst, hgl, hcopy]
      exact ⟨rfl, rfl, rfl⟩
    · intro n ha hn
      obtain ⟨i, hi, hle, hlt, hcopy⟩ := teeCopy_short chunks n hn
      rw [ha] at hbody hst hgl
      rw [hbody, hst, hgl, hcopy]
      exact ⟨i, hi, hle, hlt, rfl, rfl, rfl⟩
    · intro hfull
      rw [hbody] at hfull
      rw [hst, (teeCopy_complete chunks lost w.clientAccepts hfull).1]

theorem RequestHandler_stores_what_was_read_witness :
    (ValidTokens exampleRequest ∧ exampleRequest.ifModifiedSince = "" ∧
      listCache.get exampleGlobals.cache (sanitizedUrl exampleRequest) = none) ∧
    ((∀ msg, lostClientWorld.origin (exampleGlobals.imageServer ++
        sanitizedUrl exampleRequest) = .error msg →
      cacheStores (RequestHandler listCache exampleGlobals lostClientWorld
        exampleRequest).events = [] ∧
        (RequestHandler listCache exampleGlobals lostClientWorld exampleRequest).globals =
          exampleGlobals) ∧
    (∀ chunks lost, lostClientWorld.origin (exampleGlobals.imageServer ++
        sanitizedUrl exampleRequest) = .response chunks lost →
      ((∀ n, lostClientWorld.clientAccepts = some n → chunks.flatten.length ≤ n) →
        (RequestHandler listCache exampleGlobals lostClientWorld exampleRequest).reply.body =
            chunks.flatten ∧
          cacheStores (RequestHandler listCache exampleGlobals lostClientWorld
            exampleRequest).events = [(sanitizedUrl exampleRequest, chunks.flatten)] ∧
          (RequestHandler listCache exampleGlobals lostClientWorld
            exampleRequest).globals.cache =
            listCache.set exampleGlobals.cache (sanitizedUrl exampleRequest)
              chunks.flatten) ∧
      (∀ n, lostClientWorld.clientAccepts = some n → n < chunks.flatten.length →
        ∃ i, i < chunks.length ∧ (chunks.take i).flatten.length ≤ n ∧
          n < (chunks.take (i + 1)).flatten.length ∧
          (RequestHandler listCache exampleGlobals lostClientWorld
            exampleRequest).reply.body = chunks.flatten.take n ∧
          cacheStores (RequestHandler listCache exampleGlobals lostClientWorld
            exampleRequest).events =
            [(sanitizedUrl exampleRequest, (chunks.take (i + 1)).flatten)] ∧
          (RequestHandler listCache exampleGlobals lostClientWorld
            exampleRequest).globals.cache =
            listCache.set exampleGlobals.cache (sanitizedUrl exampleRequest)
              (chunks.take (i + 1)).flatten) ∧
      ((RequestHandler listCache exampleGlobals lostClientWorld exampleRequest).reply.body =
          chunks.flatten ++ lost →
        cacheStores (RequestHandler listCache exampleGlobals lostClientWorld
          exampleRequest).events =
          [(sanitizedUrl exampleRequest, chunks.flatten ++ lost)]))) :=
  ⟨⟨exampleRequest_valid, rfl, by decide⟩,
    RequestHandler_stores_what_was_read listCache exampleGlobals lostClientWorld
      exampleRequest exampleRequest_valid rfl (by decide)⟩

/-! ## Properties of the shutdown handlers -/

theorem steadyClock_advances : ClockAdvances steadyClock := by
  refine ⟨by decide, ?_, ?_⟩
  · intro k
    simp only [steadyClock]
    omega
  · intro k
    simp only [steadyClock]
    omega

theorem clock_after_sleeps (clock : Nat → Int) (h : ClockAdvances clock) :
    ∀ k : Nat, clock 1 + (k : Int) * 1000000000 ≤ clock (2 * k + 1) ∧
      clock 2 + (k : Int) * 1000000000 ≤ clock (2 * k + 2) := by
  obtain ⟨-, hstep, hsleep⟩ := h
  intro k
  induction k with
  | zero => simp
  | succ k ih =>
    have h₁ := hsleep k
    have h₂ := hstep (k + 1)
    have e₁ : 2 * (k + 1) + 1 = 2 * k + 3 := by omega
    have e₂ : 2 * (k + 1) + 2 = 2 * k + 4 := by omega
    have h₃ := hstep k
    rw [e₁] at h₂ ⊢
    rw [e₂] at h₂ ⊢
    push_cast
    omega

theorem drainLoop_exit (threshold graceful timeLastRequest : Int) (clock : Nat → Int)
    (h : ClockAdvances clock) :
    ∀ (fuel k : Nat), 0 < fuel →
      threshold * 1000000000 - idleAt clock timeLastRequest k ≤
        ((fuel : Int) - 1) * 1000000000 →
      ∃ d, drainLoop threshold graceful timeLastRequest (clock 0) clock fuel k
          (idleAt clock timeLastRequest k) = some d ∧ k ≤ d.sleeps ∧
        (d.gaveUp = false → threshold * 1000000000 ≤ idleAt clock timeLastRequest d.sleeps ∧
          d.leftAt = clock (2 * d.sleeps + 1)) ∧
        (d.gaveUp = true → idleAt clock timeLastRequest d.sleeps < threshold * 1000000000 ∧
          graceful * 1000000000 < waitedAt clock d.sleeps ∧
          d.leftAt = clock (2 * d.sleeps + 2)) ∧
        ∀ j, k ≤ j → j < d.sleeps →
          idleAt clock timeLastRequest j < threshold * 1000000000 ∧
            waitedAt clock j ≤ graceful * 1000000000 := by
  intro fuel
  induction fuel with
  | zero =>
    intro k h0
    omega
  | succ fuel ih =>
    intro k _ hfuel
    unfold drainLoop
    by_cases h₁ : idleAt clock timeLastRequest k < threshold * 1000000000
    · rw [if_pos h₁]
      by_cases h₂ : clock (2 * k + 2) - clock 0 > graceful * 1000000000
      · rw [if_pos h₂]
        refine ⟨_, rfl, le_refl _, ?_, ?_, ?_⟩
        · intro hg
          simp at hg
        · intro _
          exact ⟨h₁, h₂, rfl⟩
        · intro j hj hlt
          simp only at hlt
          omega
      · rw [if_neg h₂]
        have hnext : clock (2 * k + 3) - timeLastRequest =
            idleAt clock timeLastRequest (k + 1) := by
          simp only [idleAt]
          have e : 2 * (k + 1) + 1 = 2 * k + 3 := by omega
          rw [e]
        have hgrow : idleAt clock timeLastRequest k + 1000000000 ≤
            idleAt clock timeLastRequest (k + 1) := by
          rw [← hnext]
          simp only [idleAt]
          have := h.2.1 k
          have := h.2.2 k
          omega
        rw [hnext]
        obtain ⟨d, hd, hle, hstay, hgave, hbefore⟩ := ih (k + 1) (by
          push_cast at hfuel
          omega) (by
          push_cast at hfuel
          omega)
        refine ⟨d, hd, by omega, hstay, hgave, ?_⟩
        intro j hj hlt
        by_cases hjk : j = k
        · subst hjk
          exact ⟨h₁, by simp only [waitedAt]; omega⟩
        · exact hbefore j (by omega) hlt
    · rw [if_neg h₁]
      refine ⟨_, rfl, le_refl _, ?_, ?_, ?_⟩
      · intro _
        exact ⟨not_lt.mp h₁, rfl⟩
      · intro hg
        simp at hg
      · intro j hj hlt
        simp only at hlt
        omega

/-- On a clock that advances, the drain wait always ends: at the first pass at which the
time since the last request has reached the threshold or the time since `timeShutdown`
exceeds the budget. -/
theorem drainWait_exit (threshold graceful timeLastRequest : Int) (clock : Nat → Int)
    (h : ClockAdvances clock) :
    ∃ d, drainWait threshold graceful timeLastRequest clock = some d ∧
      (d.gaveUp = false → threshold * 1000000000 ≤ idleAt clock timeLastRequest d.sleeps ∧
        d.leftAt = clock (2 * d.sleeps + 1)) ∧
      (d.gaveUp = true → idleAt clock timeLastRequest d.sleeps < threshold * 1000000000 ∧
        graceful * 1000000000 < waitedAt clock d.sleeps ∧
        d.leftAt = clock (2 * d.sleeps + 2)) ∧
      ∀ j, j < d.sleeps →
        idleAt clock timeLastRequest j < threshold * 1000000000 ∧
          waitedAt clock j ≤ graceful * 1000000000 := by
  obtain ⟨d, hd, -, hstay, hgave, hbefore⟩ :=
    drainLoop_exit threshold graceful timeLastRequest clock h
      (((threshold * 1000000000 - (clock 1 - timeLastRequest)) / 1000000000).toNat + 2) 0
      (by omega) (by
        simp only [idleAt]
        push_cast
        omega)
  exact ⟨d, hd, hstay, hgave, fun j hj => hbefore j (Nat.zero_le _) hj⟩

/-- C7, as stated, fails: on a clock whose sleeps last one second and whose readings take
one microsecond, with a budget of 5 seconds and a request that completed at the instant
`timeShutdown` was read, the drain wait of main.go (threshold 15) and that of utils.go
(threshold 30) are both left through the budget test after 5 sleeps: the time since the last
request is then 5.000011 s, short of the threshold, and the wait is left 5.000012 s after
`timeShutdown`, later than the 5 seconds of the budget. -/
theorem drainWait_gives_up_before_threshold :
    ClockAdvances steadyClock ∧
      drainWait 15 5 (steadyClock 0) steadyClock =
        some { sleeps := 5, gaveUp := true, leftAt := 5000012000 } ∧
      drainWait 30 5 (steadyClock 0) steadyClock =
        some { sleeps := 5, gaveUp := true, leftAt := 5000012000 } ∧
      idleAt steadyClock (steadyClock 0) 5 = 5000011000 ∧
      ¬ (15 * 1000000000 ≤ idleAt steadyClock (steadyClock 0) 5) ∧
      ¬ (5000012000 - steadyClock 0 ≤ 5 * 1000000000) :=
  ⟨steadyClock_advances, by decide⟩

/-- C7, amended: with the last-request time fixed and a clock that never goes back and
advances at least one second over each sleep, the drain wait always ends, whatever the
threshold, the budget and the last-request time are. It is left at the first pass at which
either the time since the last request has reached the threshold or the time since
`timeShutdown` (read when the drain wait starts, after the POST to `/stop` has returned)
strictly exceeds the budget, and it is left through the budget test exactly when the
threshold is not reached at that pass. So the budget test made before each sleep reads no
more than the budget; the wait makes at most budget + 1 sleeps (none for a negative budget), at
most budget sleeps once the clock has moved between the reading of `timeShutdown` and the
first budget test, and no more sleeps than the whole seconds that separate the first
measure of the idle time from the threshold, rounded up. -/
theorem drainWait_terminates (threshold graceful timeLastRequest : Int) (clock : Nat → Int)
    (h : ClockAdvances clock) :
    ∃ d, drainWait threshold graceful timeLastRequest clock = some d ∧
      (threshold * 1000000000 ≤ idleAt clock timeLastRequest d.sleeps ∨
        graceful * 1000000000 < waitedAt clock d.sleeps) ∧
      (d.gaveUp = true ↔ idleAt clock timeLastRequest d.sleeps < threshold * 1000000000) ∧
      (∀ j, j < d.sleeps →
        idleAt clock timeLastRequest j < threshold * 1000000000 ∧
          waitedAt clock j ≤ graceful * 1000000000) ∧
      (d.sleeps : Int) ≤ max 0 (graceful + 1) ∧
      (clock 0 < clock 2 → (d.sleeps : Int) ≤ max 0 graceful) ∧
      (d.sleeps = 0 ∨ ((d.sleeps : Int) - 1) * 1000000000 <
        threshold * 1000000000 - idleAt clock timeLastRequest 0) := by
  obtain ⟨d, hd, hstay, hgave, hbefore⟩ :=
    drainWait_exit threshold graceful timeLastRequest clock h
  have h01 : clock 0 ≤ clock 1 := h.1
  have h12 : clock 1 ≤ clock 2 := by simpa using h.2.1 0
  refine ⟨d, hd, ?_, ?_, hbefore, ?_, ?_, ?_⟩
  · cases hg : d.gaveUp with
    | false => exact Or.inl (hstay hg).1
    | true => exact Or.inr (hgave hg).2.1
  · constructor
    · intro hg
      exact (hgave hg).1
    · intro hlt
      cases hg : d.gaveUp with
      | false =>
        have := (hstay hg).1
        omega
      | true => rfl
  · by_cases h0 : d.sleeps = 0
    · rw [h0]
      simp
    · have hb := (hbefore (d.sleeps - 1) (by omega)).2
      have hc := (clock_after_sleeps clock h (d.sleeps - 1)).2
      simp only [waitedAt] at hb
      have hcast : ((d.sleeps - 1 : Nat) : Int) = (d.sleeps : Int) - 1 := by omega
      rw [hcast] at hc
      exact le_max_of_le_right (by omega)
  · intro hmoved
    by_cases h0 : d.sleeps = 0
    · rw [h0]
      simp
    · have hb := (hbefore (d.sleeps - 1) (by omega)).2
      have hc := (clock_after_sleeps clock h (d.sleeps - 1)).2
      simp only [waitedAt] at hb
      have hcast : ((d.sleeps - 1 : Nat) : Int) = (d.sleeps : Int) - 1 := by omega
      rw [hcast] at hc
      exact le_max_of_le_right (by omega)
  · by_cases h0 : d.sleeps = 0
    · exact Or.inl h0
    · right
      have hb := (hbefore (d.sleeps - 1) (by omega)).1
      have hc := (clock_after_sleeps clock h (d.sleeps - 1)).1
      simp only [idleAt] at hb ⊢
      have hcast : ((d.sleeps - 1 : Nat) : Int) = (d.sleeps : Int) - 1 := by omega
      rw [hcast] at hc
      simp only [Nat.mul_zero, Nat.zero_add]
      omega

theorem drainWait_terminates_witness :
    ClockAdvances steadyClock ∧
    ∃ d, drainWait 15 60 0 steadyClock = some d ∧
      (15 * 1000000000 ≤ idleAt steadyClock 0 d.sleeps ∨
        60 * 1000000000 < waitedAt steadyClock d.sleeps) ∧
      (d.gaveUp = true ↔ idleAt steadyClock 0 d.sleeps < 15 * 1000000000) ∧
      (∀ j, j < d.sleeps →
        idleAt steadyClock 0 j < 15 * 1000000000 ∧
          waitedAt steadyClock j ≤ 60 * 1000000000) ∧
      (d.sleeps : Int) ≤ max 0 (60 + 1) ∧
      (steadyClock 0 < steadyClock 2 → (d.sleeps : Int) ≤ max 0 60) ∧
      (d.sleeps = 0 ∨ ((d.sleeps : Int) - 1) * 1000000000 <
        15 * 1000000000 - idleAt steadyClock 0 0) :=
  ⟨steadyClock_advances, drainWait_terminates 15 60 0 steadyClock steadyClock_advances⟩

/-- C8, the failing input: `counters` is declared without a value, so `initMetrics` panics
on its first assignment and sets no state up; `recordRequest` on the nil map reads a zero
`RequestCounter` and panics on the nil counter. -/
theorem initMetrics_panics_on_declared_map :
    initMetrics counters = .error .nilMapAssignment ∧
      recordRequest counters true 5 = .error .nilDereference ∧
      recordRequest counters false 40 = .error .nilDereference :=
  ⟨rfl, rfl, rfl⟩

/-- On a map that has been allocated, `initMetrics` registers the three classes of its
array with counters at zero. -/
theorem initMetrics_on_allocated_map :
    initMetrics (some []) = .ok (some [("", { elapsed := some 0, count := some 0 }),
      ("MISS", { elapsed := some 0, count := some 0 }),
      ("HIT", { elapsed := some 0, count := some 0 })]) :=
  rfl

/-- From the state that `initMetrics` builds on an allocated map, `recordRequest` with a
non-negative elapsed value adds one to the count and the elapsed value to the total of the
class of the request, and leaves the other classes as they were. -/
theorem recordRequest_on_allocated_map (hit : Bool) (elapsed : Int) (h : 0 ≤ elapsed)
    (hitC missC zeroC : RequestCounter) (hc e mc me : Int)
    (hh : hitC = { elapsed := some e, count := some hc })
    (hmiss : missC = { elapsed := some me, count := some mc }) :
    recordRequest (some [("", zeroC), ("MISS", missC), ("HIT", hitC)]) hit elapsed =
      .ok (some [("", zeroC),
        ("MISS", if hit then missC else { elapsed := some (me + elapsed), count := some (mc + 1) }),
        ("HIT", if hit then { elapsed := some (e + elapsed), count := some (hc + 1) }
          else hitC)]) := by
  subst hh
  subst hmiss
  have hneg : ¬ elapsed < 0 := by omega
  cases hit <;>
    simp [recordRequest, mapIndex, counterInc, counterAdd, updateCounters, RequestHit,
      RequestMiss, List.find?, hneg]

/-! ## Properties of the ping -/

/-- C10, the failing input: on the body `{"imageServer":"https://img.example/"}`, which has
no `tls` member, `strings.Index` yields -1 and the slice `response[:tlsIndex]` panics,
whatever the JSON decoder would have produced. -/
theorem pingServer_panics_without_tls
    (unmarshal : String → ServerResponse → Option ServerResponse) (held : ServerResponse) :
    stringsIndex pingBodyWithoutTls "\"tls\"" = -1 ∧
      pingServer unmarshal held (.body pingBodyWithoutTls) = .panicked .sliceBounds :=
  ⟨by decide, rfl⟩

end MdAtHome
